import Mathlib

/-!
Shallow embedding of the JKDev Turing Machine simulator
(`src/TuringMachine.py`) and verification of its specification.

The Python module defines enums `TMDirection` and `TMStateType`, classes
`TMState` and `TMTransition`, and the machine class `TM` with `__init__`,
`run` and `step`.  All fatal conditions raise the single exception class
`TMError` with a distinguishing message; here each distinct raise site is
a distinct constructor of `TMErr`.  Python's in-place mutation is modelled
by explicit state passing: `step` returns the machine state at the point
of a raise together with the error, mirroring the fact that mutations
already performed remain visible on the Python object.
-/

/-- Enum for Turing Machine head movement direction. -/
inductive TMDirection
  | LEFT
  | RIGHT
deriving DecidableEq

/-- Enum for Turing Machine state types. -/
inductive TMStateType
  | START
  | ACCEPTING
  | REJECTING
  | NORMAL
deriving DecidableEq

/-- A transition of a Turing Machine state.  The Python class also stores a
back-reference `state` to its owning `TMState`; it is never consulted by the
machine and is omitted here (it would make the data cyclic). -/
structure TMTransition where
  symbol : String
  new_state : String
  new_symbol : String
  direction : TMDirection
deriving DecidableEq

/-- A state in a Turing Machine: a name, a type and an ordered list of
outgoing transitions. -/
structure TMState where
  name : String
  state_type : TMStateType
  transitions : List TMTransition
deriving DecidableEq

/-- `TMState.add_transition`: appends a transition and returns the updated
state (the Python method mutates `self.transitions` and returns `self` for
chaining). -/
def TMState.add_transition (s : TMState) (symbol : String) (new_state : String)
    (new_symbol : String) (direction : TMDirection) : TMState :=
  { s with transitions := s.transitions ++
      [{ symbol := symbol, new_state := new_state, new_symbol := new_symbol,
         direction := direction }] }

/-- The distinct fatal conditions of the module.  Python raises the single
class `TMError` with a distinguishing message at each numbered site, plus
the two interpreter-level failures that are possible in `step`
(`AttributeError` on a `None` current state, `IndexError` on an
out-of-range tape index). -/
inductive TMErr
  | exactlyOneStartState
  | mustHaveStartState
  | atLeastOneAcceptingState
  | atLeastOneRejectingState
  | noPossibleTransition
  | nonExistentState
  | missingTransitions
  | nullCurrentState
  | indexError
deriving DecidableEq

/-- The Turing Machine object: the fields assigned by `TM.__init__`.
`head_pos` is an `Int` because Python integers are signed; `current_state`
is an `Option` because Python's reference is nullable (and `run` tests it
against `None`). -/
structure TM where
  empty_symbol : String
  tape : List String
  states : List TMState
  implicit_reject : Bool
  head_pos : Int
  current_state : Option TMState
  accepting_states : List TMState
  rejecting_states : List TMState
deriving DecidableEq

/-- Python list indexing: a nonnegative index `i` addresses position `i`
when `i < n`; a negative index addresses position `n + i` when that is
nonnegative; anything else is an `IndexError`. -/
def pyIdx (n : Nat) (i : Int) : Option Nat :=
  if 0 ≤ i then
    if i < (n : Int) then some i.toNat else none
  else
    if 0 ≤ (n : Int) + i then some ((n : Int) + i).toNat else none

/-- Python `l[i]` on a list of symbols. -/
def pyGet (l : List String) (i : Int) : Option String :=
  match pyIdx l.length i with
  | some j => l[j]?
  | none => none

/-- Python `l[i] = v` on a list of symbols. -/
def pySet (l : List String) (i : Int) (v : String) : Option (List String) :=
  match pyIdx l.length i with
  | some j => some (l.set j v)
  | none => none

/-- `TM.__init__`: validation and initialisation, in source order.  The
second start-state check (`len(start) == 0`) is kept even though the first
(`len(start) != 1`) already subsumes it, exactly as in the source. -/
def TM.init (states : List TMState) (tape : List String) (empty_symbol : String)
    (implicit_reject : Bool) : Except TMErr TM :=
  let start := states.filter (fun s => decide (s.state_type = TMStateType.START))
  if start.length ≠ 1 then .error .exactlyOneStartState
  else if start.length = 0 then .error .mustHaveStartState
  else
    let accepting_states :=
      states.filter (fun s => decide (s.state_type = TMStateType.ACCEPTING))
    let rejecting_states :=
      states.filter (fun s => decide (s.state_type = TMStateType.REJECTING))
    if accepting_states.length = 0 then .error .atLeastOneAcceptingState
    else if implicit_reject = false ∧ rejecting_states.length = 0 then
      .error .atLeastOneRejectingState
    else .ok
      { empty_symbol := empty_symbol, tape := tape, states := states,
        implicit_reject := implicit_reject, head_pos := 0,
        current_state := start.head?,
        accepting_states := accepting_states,
        rejecting_states := rejecting_states }

/-- The first phase of `TM.step`: `if self.head_pos >= len(self.tape):
self.tape.append(self.empty_symbol)`. -/
def TM.extendTape (m : TM) : List String :=
  if (m.tape.length : Int) ≤ m.head_pos then m.tape ++ [m.empty_symbol]
  else m.tape

/-- Outcome of one `step` call: normal return, or an exception together
with the machine state at the moment of the raise (Python mutations made
before the raise remain on the object). -/
inductive StepOutcome
  | ok (m : TM)
  | err (e : TMErr) (m : TM)
deriving DecidableEq

/-- `TM.step`, phase by phase in source order: lazy right-extension of the
tape, read, transition match (exactly one required), write, target-state
resolution (exactly one required), current-state update, head movement
(insert at the front for LEFT at position 0). -/
def TM.step (m : TM) : StepOutcome :=
  let m1 : TM := { m with tape := m.extendTape }
  match m1.current_state with
  | none => .err .nullCurrentState m1
  | some cs =>
    match pyGet m1.tape m1.head_pos with
    | none => .err .indexError m1
    | some read =>
      match cs.transitions.filter (fun t => decide (t.symbol = read)) with
      | [t] =>
        match pySet m1.tape m1.head_pos t.new_symbol with
        | none => .err .indexError m1
        | some tape2 =>
          let m2 : TM := { m1 with tape := tape2 }
          match m2.states.filter (fun s => decide (s.name = t.new_state)) with
          | [ns] =>
            let m3 : TM := { m2 with current_state := some ns }
            if m3.head_pos = 0 ∧ t.direction = TMDirection.LEFT then
              .ok { m3 with tape := m3.empty_symbol :: m3.tape }
            else if t.direction = TMDirection.LEFT then
              .ok { m3 with head_pos := m3.head_pos - 1 }
            else
              .ok { m3 with head_pos := m3.head_pos + 1 }
          | _ => .err .nonExistentState m2
      | _ => .err .noPossibleTransition m1

/-- Outcome of `TM.run`: an explicit boolean return, falling off the loop
(Python returns `None`), or a propagated exception. -/
inductive RunOutcome
  | finished (b : Bool)
  | noResult
  | error (e : TMErr)
deriving DecidableEq

/-- The halting checks performed at the top of each `run` iteration, in
source order: the `None` tests (fatal unless `implicit_reject`), then the
ACCEPTING and REJECTING tests.  `none` means the iteration falls through
to `step`. -/
def TM.haltCheck (m : TM) : Option RunOutcome :=
  match m.current_state with
  | none =>
    if m.implicit_reject = false then some (.error .missingTransitions)
    else some (.finished false)
  | some cs =>
    if cs.state_type = TMStateType.ACCEPTING then some (.finished true)
    else if cs.state_type = TMStateType.REJECTING then some (.finished false)
    else none

/-- `TM.run`: up to `max_steps` iterations, each performing the halting
checks and otherwise calling `step`; exhausting the loop returns `None`. -/
def TM.run (m : TM) : Nat → RunOutcome
  | 0 => .noResult
  | n + 1 =>
    match m.haltCheck with
    | some r => r
    | none =>
      match m.step with
      | .ok m' => m'.run n
      | .err e _ => .error e

/-- The transitions of the current state that match the symbol under the
head (after the lazy right-extension), i.e. the list whose length `step`
requires to be exactly 1. -/
def TM.matchedTransitions (m : TM) : List TMTransition :=
  match m.current_state, pyGet m.extendTape m.head_pos with
  | some cs, some read => cs.transitions.filter (fun t => decide (t.symbol = read))
  | _, _ => []

/-- The machine at the start of run-loop iteration `k`, provided every
earlier iteration fell through all halting checks and performed a
successful `step`; `none` once an iteration halts, errors, or was never
reached. -/
def TM.loopState (m : TM) : Nat → Option TM
  | 0 => some m
  | k + 1 =>
    match m.haltCheck with
    | some _ => none
    | none =>
      match m.step with
      | .ok m' => m'.loopState k
      | .err _ _ => none

/-! ### Concrete machines used as witnesses and counterexamples -/

/-- A start state with a single transition on the empty symbol to `A`. -/
def stS : TMState := ⟨"S", .START, [⟨"_", "A", "_", .RIGHT⟩]⟩

/-- An accepting state. -/
def stA : TMState := ⟨"A", .ACCEPTING, []⟩

/-- A rejecting state. -/
def stR : TMState := ⟨"R", .REJECTING, []⟩

/-- A start state with no transitions at all. -/
def stNone : TMState := ⟨"s", .START, []⟩

/-- A start state whose only transition targets the undefined name `X`. -/
def stD : TMState := ⟨"SD", .START, [⟨"_", "X", "q", .RIGHT⟩]⟩

/-- A start state stepping right into `SX`. -/
def stS0 : TMState := ⟨"S0", .START, [⟨"_", "SX", "x", .RIGHT⟩]⟩

/-- A normal state with a LEFT-moving self-transition on the empty symbol. -/
def stSX : TMState := ⟨"SX", .NORMAL, [⟨"_", "SX", "z", .LEFT⟩]⟩

/-- The machine `TM([stS, stA, stR], [], empty_symbol := "_")`. -/
def exM : TM :=
  ⟨"_", [], [stS, stA, stR], false, 0, some stS, [stA], [stR]⟩

/-- `exM` after one step: tape `["_"]`, head 1, current state `stA`. -/
def exM1 : TM :=
  ⟨"_", ["_"], [stS, stA, stR], false, 1, some stA, [stA], [stR]⟩

/-- The machine `TM([stNone, stA], [], implicit_reject := True)`. -/
def mC1 : TM :=
  ⟨"_", [], [stNone, stA], true, 0, some stNone, [stA], []⟩

/-- The machine `TM([stD, stA, stR], [], empty_symbol := "_")`. -/
def mC8 : TM :=
  ⟨"_", [], [stD, stA, stR], false, 0, some stD, [stA], [stR]⟩

/-- The machine `TM([stS0, stSX, stA, stR], [], empty_symbol := "_")`. -/
def mC5i : TM :=
  ⟨"_", [], [stS0, stSX, stA, stR], false, 0, some stS0, [stA], [stR]⟩

/-- `mC5i` after one step: tape `["x"]`, head 1, in state `stSX`, about to
take a LEFT transition while the head sits at the end of the tape. -/
def mC5 : TM :=
  ⟨"_", ["x"], [stS0, stSX, stA, stR], false, 1, some stSX, [stA], [stR]⟩

/-- `mC5` after the LEFT step: the lazy extension grew the tape to
`["x", "z"]` although the movement was a plain left decrement. -/
def mC5x : TM :=
  ⟨"_", ["x", "z"], [stS0, stSX, stA, stR], false, 0, some stSX, [stA], [stR]⟩

/-- The matched LEFT transition of `mC5`. -/
def tC5 : TMTransition := ⟨"_", "SX", "z", .LEFT⟩

/-! ### Helper lemmas -/

theorem pyIdx_of_nonneg (n : Nat) (i : Int) (h0 : 0 ≤ i) (h1 : i < (n : Int)) :
    pyIdx n i = some i.toNat := by
  unfold pyIdx
  rw [if_pos h0, if_pos h1]

theorem pySet_some_length (l : List String) (i : Int) (v : String)
    (l' : List String) (h : pySet l i v = some l') : l'.length = l.length := by
  unfold pySet at h
  rcases hj : pyIdx l.length i with _ | j <;> rw [hj] at h
  · exact absurd h (by simp)
  · simp only [Option.some.injEq] at h
    subst h
    simp

theorem extendTape_length (m : TM) :
    m.extendTape.length =
      if (m.tape.length : Int) ≤ m.head_pos then m.tape.length + 1
      else m.tape.length := by
  unfold TM.extendTape
  split <;> simp

theorem head_lt_extendTape_length (m : TM) (_h0 : 0 ≤ m.head_pos)
    (h1 : m.head_pos ≤ (m.tape.length : Int)) :
    m.head_pos < (m.extendTape.length : Int) := by
  rw [extendTape_length]
  split <;> push_cast <;> omega

theorem step_ok_cases (m m' : TM) (hs : m.step = .ok m') :
    ∃ cs read t tape2 ns,
      m.current_state = some cs ∧
      pyGet m.extendTape m.head_pos = some read ∧
      cs.transitions.filter (fun x => decide (x.symbol = read)) = [t] ∧
      pySet m.extendTape m.head_pos t.new_symbol = some tape2 ∧
      m.states.filter (fun s => decide (s.name = t.new_state)) = [ns] ∧
      ((m.head_pos = 0 ∧ t.direction = .LEFT ∧
          m' = { m with tape := m.empty_symbol :: tape2, current_state := some ns }) ∨
       (¬(m.head_pos = 0 ∧ t.direction = .LEFT) ∧ t.direction = .LEFT ∧
          m' = { m with tape := tape2, head_pos := m.head_pos - 1,
                        current_state := some ns }) ∨
       (¬(m.head_pos = 0 ∧ t.direction = .LEFT) ∧ t.direction ≠ .LEFT ∧
          m' = { m with tape := tape2, head_pos := m.head_pos + 1,
                        current_state := some ns })) := by
  unfold TM.step at hs
  simp only at hs
  split at hs
  · exact absurd hs (by simp)
  next cs hcs =>
    split at hs
    · exact absurd hs (by simp)
    next read hread =>
      split at hs
      next t hmatch =>
        split at hs
        · exact absurd hs (by simp)
        next tape2 hset =>
          split at hs
          next ns hns =>
            refine ⟨cs, read, t, tape2, ns, hcs, hread, hmatch, hset, hns, ?_⟩
            split at hs
            next hL =>
              simp only [StepOutcome.ok.injEq] at hs
              exact Or.inl ⟨hL.1, hL.2, hs.symm⟩
            next hL =>
              split at hs
              next hdir =>
                simp only [StepOutcome.ok.injEq] at hs
                exact Or.inr (Or.inl ⟨hL, hdir, hs.symm⟩)
              next hdir =>
                simp only [StepOutcome.ok.injEq] at hs
                exact Or.inr (Or.inr ⟨hL, hdir, hs.symm⟩)
          next hns =>
            exact absurd hs (by simp)
      next hmatch =>
        exact absurd hs (by simp)

/-! ### Claim C1 -/

/-- C1: the claim says that with `implicit_reject = true`, a run that
reaches a configuration whose current state has no transition matching the
read symbol returns "rejected" (false).  The code instead raises the
fatal "No possible transition was found" error from `step`, because
`current_state` is never set to `None` and the implicit-reject branch of
`run` is unreachable: on the machine `mC1` (constructed with
`implicit_reject = true`, start state without transitions), `run`
propagates the error and does not return false. -/
theorem C1_implicit_reject_is_dead :
    TM.init [stNone, stA] [] "_" true = .ok mC1 ∧
    mC1.run 10 = .error .noPossibleTransition ∧
    mC1.run 10 ≠ .finished false := by
  refine ⟨rfl, rfl, by decide⟩

/-! ### Claim C3 -/

/-- C3: construction fails iff the number of START states is not exactly 1,
or there are no ACCEPTING states, or there are no REJECTING states while
`implicit_reject` is false; the three checks run in that order, each with
its own distinct error, and construction succeeds otherwise (head at 0,
current state the unique start state). -/
theorem C3_construction_validation (states : List TMState) (tape : List String)
    (es : String) (ir : Bool) :
    ((∃ e, TM.init states tape es ir = .error e) ↔
      ((states.filter (fun s => decide (s.state_type = TMStateType.START))).length ≠ 1 ∨
       (states.filter (fun s => decide (s.state_type = TMStateType.ACCEPTING))).length = 0 ∨
       ((states.filter (fun s => decide (s.state_type = TMStateType.REJECTING))).length = 0 ∧
         ir = false))) ∧
    (TM.init states tape es ir =
      if (states.filter (fun s => decide (s.state_type = TMStateType.START))).length ≠ 1 then
        .error .exactlyOneStartState
      else if (states.filter (fun s => decide (s.state_type = TMStateType.ACCEPTING))).length = 0 then
        .error .atLeastOneAcceptingState
      else if ir = false ∧
          (states.filter (fun s => decide (s.state_type = TMStateType.REJECTING))).length = 0 then
        .error .atLeastOneRejectingState
      else
        .ok { empty_symbol := es, tape := tape, states := states, implicit_reject := ir,
              head_pos := 0,
              current_state :=
                (states.filter (fun s => decide (s.state_type = TMStateType.START))).head?,
              accepting_states :=
                states.filter (fun s => decide (s.state_type = TMStateType.ACCEPTING)),
              rejecting_states :=
                states.filter (fun s => decide (s.state_type = TMStateType.REJECTING)) }) := by
  have heq : TM.init states tape es ir =
      (if (states.filter (fun s => decide (s.state_type = TMStateType.START))).length ≠ 1 then
        Except.error TMErr.exactlyOneStartState
      else if (states.filter (fun s => decide (s.state_type = TMStateType.ACCEPTING))).length = 0 then
        .error .atLeastOneAcceptingState
      else if ir = false ∧
          (states.filter (fun s => decide (s.state_type = TMStateType.REJECTING))).length = 0 then
        .error .atLeastOneRejectingState
      else
        .ok { empty_symbol := es, tape := tape, states := states, implicit_reject := ir,
              head_pos := 0,
              current_state :=
                (states.filter (fun s => decide (s.state_type = TMStateType.START))).head?,
              accepting_states :=
                states.filter (fun s => decide (s.state_type = TMStateType.ACCEPTING)),
              rejecting_states :=
                states.filter (fun s => decide (s.state_type = TMStateType.REJECTING)) }) := by
    unfold TM.init
    by_cases h1 :
        (states.filter (fun s => decide (s.state_type = TMStateType.START))).length ≠ 1
    · simp only [if_pos h1]
    · rw [not_ne_iff] at h1
      simp only [if_neg (by omega : ¬ ((states.filter
        (fun s => decide (s.state_type = TMStateType.START))).length ≠ 1))]
      rw [if_neg (by omega)]
  refine ⟨?_, heq⟩
  rw [heq]
  split_ifs with h1 h2 h3
  · exact iff_of_true ⟨_, rfl⟩ (Or.inl h1)
  · exact iff_of_true ⟨_, rfl⟩ (Or.inr (Or.inl h2))
  · exact iff_of_true ⟨_, rfl⟩ (Or.inr (Or.inr ⟨h3.2, h3.1⟩))
  · refine iff_of_false ?_ ?_
    · rintro ⟨e, he⟩
      simp at he
    · rintro (h | h | h)
      · exact h1 h
      · exact h2 h
      · exact h3 ⟨h.2, h.1⟩

/-! ### Claims C6 and C7 -/

theorem step_err_tape (m : TM) (e : TMErr) (m' : TM) (hs : m.step = .err e m') :
    m'.tape.length = m.extendTape.length := by
  unfold TM.step at hs
  simp only at hs
  split at hs
  · simp only [StepOutcome.err.injEq] at hs
    rw [← hs.2]
  · split at hs
    · simp only [StepOutcome.err.injEq] at hs
      rw [← hs.2]
    · split at hs
      · split at hs
        · simp only [StepOutcome.err.injEq] at hs
          rw [← hs.2]
        next tape2 hset =>
          split at hs
          · split at hs
            · simp at hs
            · split at hs
              · simp at hs
              · simp at hs
          · simp only [StepOutcome.err.injEq] at hs
            rw [← hs.2]
            exact pySet_some_length _ _ _ _ hset
      · simp only [StepOutcome.err.injEq] at hs
        rw [← hs.2]

theorem step_eq_nondet (m : TM) (cs : TMState) (read : String)
    (hcs : m.current_state = some cs)
    (hread : pyGet m.extendTape m.head_pos = some read)
    (hlen : (cs.transitions.filter (fun t => decide (t.symbol = read))).length ≠ 1) :
    m.step = .err .noPossibleTransition { m with tape := m.extendTape } := by
  unfold TM.step
  simp only
  rw [hcs]
  simp only
  rw [hread]
  simp only
  rcases hf : cs.transitions.filter (fun t => decide (t.symbol = read)) with _ | ⟨t, _ | ⟨t2, r⟩⟩
  · rw [hf]
  · rw [hf] at hlen
    simp at hlen
  · rw [hf]

/-- C6: when the head position is at (or beyond) the end of the tape,
`step` first appends exactly one empty-symbol cell, the symbol then read
at the head position is the empty symbol, and the extension survives even
when the step afterwards fails with an error (the machine state carried by
the error has the extended tape).  The bounds hypotheses say the head sits
exactly at the end, which is the only way `head ≥ length` arises for a
machine driven through the module's own operations. -/
theorem C6_extension_before_read (m : TM)
    (hge : (m.tape.length : Int) ≤ m.head_pos)
    (hle : m.head_pos ≤ (m.tape.length : Int)) :
    m.extendTape = m.tape ++ [m.empty_symbol] ∧
    pyGet m.extendTape m.head_pos = some m.empty_symbol ∧
    (∀ e m', m.step = .err e m' → m'.tape.length = m.tape.length + 1) := by
  have hpos : m.head_pos = (m.tape.length : Int) := le_antisymm hle hge
  have hext : m.extendTape = m.tape ++ [m.empty_symbol] := by
    unfold TM.extendTape
    rw [if_pos hge]
  refine ⟨hext, ?_, ?_⟩
  · rw [hext, hpos]
    unfold pyGet
    rw [pyIdx_of_nonneg _ _ (by positivity)
      (by rw [List.length_append, List.length_singleton]; push_cast; omega)]
    simp
  · intro e m' hs
    rw [step_err_tape m e m' hs, hext]
    simp

/-- C7: `step` raises the "no possible transition" error exactly when the
number of transitions of the current state whose trigger symbol equals the
symbol read at the head position differs from 1 (zero or at least two). -/
theorem C7_nondeterministic_error (m : TM) (cs : TMState) (read : String)
    (hcs : m.current_state = some cs)
    (hread : pyGet m.extendTape m.head_pos = some read) :
    (∃ m', m.step = .err .noPossibleTransition m') ↔
      (cs.transitions.filter (fun t => decide (t.symbol = read))).length ≠ 1 := by
  constructor
  · rintro ⟨m', hs⟩
    unfold TM.step at hs
    simp only at hs
    split at hs
    next hnone => rw [hcs] at hnone; cases hnone
    next cs' hcs' =>
      rw [hcs] at hcs'
      injection hcs' with hcseq
      subst hcseq
      split at hs
      next hnone => rw [hread] at hnone; cases hnone
      next read' hread' =>
        rw [hread] at hread'
        injection hread' with hreadeq
        subst hreadeq
        split at hs
        next t hf =>
          split at hs
          · simp at hs
          next tape2 hset =>
            split at hs
            next ns hns =>
              split at hs
              · simp at hs
              · split at hs
                · simp at hs
                · simp at hs
            next => simp at hs
        next hf =>
          intro hlen
          rcases List.length_eq_one.mp hlen with ⟨t, ht⟩
          exact hf t ht
  · intro hlen
    exact ⟨_, step_eq_nondet m cs read hcs hread hlen⟩

/-- The machine state carried by the dangling-transition error of `mC8`:
the write of `"q"` has been applied, head and current state unchanged. -/
def mC8x : TM :=
  ⟨"_", ["q"], [stD, stA, stR], false, 0, some stD, [stA], [stR]⟩

/-- C6 witness at the concrete machine `mC1` (empty tape, head 0). -/
theorem C6_extension_before_read_witness :
    mC1.extendTape = mC1.tape ++ [mC1.empty_symbol] ∧
    pyGet mC1.extendTape mC1.head_pos = some mC1.empty_symbol := by
  have h := C6_extension_before_read mC1 (by decide) (by decide)
  exact ⟨h.1, h.2.1⟩

/-- C7 witness: on `mC1` the start state has no transition matching the
read symbol, and `step` indeed errs with "no possible transition". -/
theorem C7_nondeterministic_error_witness :
    (stNone.transitions.filter (fun t => decide (t.symbol = "_"))).length ≠ 1 :=
  (C7_nondeterministic_error mC1 stNone "_" rfl rfl).mp
    ⟨{ mC1 with tape := ["_"] }, rfl⟩

/-! ### Claim C8 -/

theorem pyIdx_lt (n : Nat) (i : Int) (j : Nat) (h : pyIdx n i = some j) :
    j < n := by
  unfold pyIdx at h
  split at h
  · split at h
    · simp only [Option.some.injEq] at h
      omega
    · cases h
  · split at h
    · simp only [Option.some.injEq] at h
      omega
    · cases h

theorem pyGet_pySet_self (l : List String) (i : Int) (v : String)
    (l' : List String) (h : pySet l i v = some l') : pyGet l' i = some v := by
  unfold pySet at h
  rcases hj : pyIdx l.length i with _ | j <;> rw [hj] at h
  · exact absurd h (by simp)
  · simp only [Option.some.injEq] at h
    subst h
    unfold pyGet
    rw [List.length_set, hj]
    have hjlt : j < l.length := pyIdx_lt _ _ _ hj
    simp [List.getElem?_set, hjlt]

/-- C8: when the matched transition's target name resolves to zero or more
than one state, `step` errs with the "non-existent state" error; the
machine state at the raise has the write symbol already applied at the
head position, while current state and head position are unchanged. -/
theorem C8_dangling_transition (m : TM) (cs : TMState) (read : String)
    (t : TMTransition) (tape2 : List String)
    (hcs : m.current_state = some cs)
    (hread : pyGet m.extendTape m.head_pos = some read)
    (hf : cs.transitions.filter (fun x => decide (x.symbol = read)) = [t])
    (hset : pySet m.extendTape m.head_pos t.new_symbol = some tape2)
    (hns : (m.states.filter (fun s => decide (s.name = t.new_state))).length ≠ 1) :
    m.step = .err .nonExistentState { m with tape := tape2 } ∧
    pyGet tape2 m.head_pos = some t.new_symbol ∧
    ({ m with tape := tape2 } : TM).current_state = m.current_state ∧
    ({ m with tape := tape2 } : TM).head_pos = m.head_pos := by
  refine ⟨?_, pyGet_pySet_self _ _ _ _ hset, rfl, rfl⟩
  simp only [TM.step, hcs, hread, hf, hset]
  rcases hr : m.states.filter (fun s => decide (s.name = t.new_state)) with _ | ⟨a, _ | ⟨b, r2⟩⟩
  · rw [hr]
  · rw [hr] at hns
    simp at hns
  · rw [hr]

/-- C8 witness at the concrete machine `mC8`, whose start state's only
transition targets the undefined name `X`. -/
theorem C8_dangling_transition_witness :
    mC8.step = .err .nonExistentState mC8x ∧
    pyGet ["q"] mC8.head_pos = some "q" ∧
    mC8x.current_state = mC8.current_state ∧
    mC8x.head_pos = mC8.head_pos :=
  C8_dangling_transition mC8 stD "_" ⟨"_", "X", "q", .RIGHT⟩ ["q"]
    rfl rfl rfl rfl (by decide)

/-! ### Claim C4 -/

/-- C4: a step that returns normally preserves `0 ≤ head ≤ tape.length`,
and the tape length never decreases across the step. -/
theorem C4_head_tape_invariant (m m' : TM) (h0 : 0 ≤ m.head_pos)
    (h1 : m.head_pos ≤ (m.tape.length : Int)) (hs : m.step = .ok m') :
    (0 ≤ m'.head_pos ∧ m'.head_pos ≤ (m'.tape.length : Int)) ∧
    m.tape.length ≤ m'.tape.length := by
  obtain ⟨cs, read, t, tape2, ns, hcs, hread, hf, hset, hns, hcase⟩ :=
    step_ok_cases m m' hs
  have hlen2 : tape2.length = m.extendTape.length := pySet_some_length _ _ _ _ hset
  have hlt : m.head_pos < (m.extendTape.length : Int) :=
    head_lt_extendTape_length m h0 h1
  have hgrow : m.tape.length ≤ m.extendTape.length := by
    rw [extendTape_length]
    split <;> omega
  rcases hcase with ⟨hz, _hd, hm'⟩ | ⟨hnz, hd, hm'⟩ | ⟨hnz, _hd, hm'⟩
  · subst hm'
    dsimp only
    refine ⟨⟨by omega, ?_⟩, ?_⟩
    · rw [hz, List.length_cons]
      positivity
    · rw [List.length_cons]
      omega
  · subst hm'
    dsimp only
    have hne : m.head_pos ≠ 0 := fun h => hnz ⟨h, hd⟩
    refine ⟨⟨by omega, by omega⟩, by omega⟩
  · subst hm'
    dsimp only
    refine ⟨⟨by omega, by omega⟩, by omega⟩

/-- C4 witness at the concrete machine `exM` (one successful step into the
accepting state). -/
theorem C4_head_tape_invariant_witness :
    (0 ≤ exM1.head_pos ∧ exM1.head_pos ≤ (exM1.tape.length : Int)) ∧
    exM.tape.length ≤ exM1.tape.length :=
  C4_head_tape_invariant exM exM1 (by decide) (by decide) (by decide)

/-! ### Claim C5 -/

/-- C5 counterexample: on the machine `mC5` (reachable from the
constructed machine `mC5i` by one successful step) the matched transition
moves LEFT with the head at position `1 > 0`, yet the tape length changes
from 1 to 2 across the step, because the head sat at the end of the tape
and the pre-read lazy extension appended a cell; the claim's "tape length
is unchanged" is therefore false for the whole step call. -/
theorem C5_left_move_grows_tape :
    TM.init [stS0, stSX, stA, stR] [] "_" false = .ok mC5i ∧
    mC5i.step = .ok mC5 ∧
    mC5.matchedTransitions = [tC5] ∧
    tC5.direction = .LEFT ∧
    0 < mC5.head_pos ∧
    mC5.step = .ok mC5x ∧
    mC5x.tape.length ≠ mC5.tape.length :=
  ⟨rfl, rfl, rfl, rfl, by decide, rfl, by decide⟩

/-- C5 (amended): for every successful step, with tape lengths measured
against the tape as already extended by the automatic end-extension
(`extendTape`, which appends one cell exactly when `head ≥ length`,
cf. `extendTape_length`): LEFT at head 0 leaves the head at 0, inserts
one empty-symbol cell at index 0 and grows the (extended) tape by one;
LEFT at head > 0 decrements the head by exactly 1 and keeps the
(extended) tape length; RIGHT increments the head by exactly 1. -/
theorem C5_movement (m m' : TM) (t : TMTransition)
    (hm : m.matchedTransitions = [t]) (hs : m.step = .ok m') :
    (m.head_pos = 0 ∧ t.direction = .LEFT →
      m'.head_pos = 0 ∧
      m'.tape.length = m.extendTape.length + 1 ∧
      m'.tape.head? = some m.empty_symbol) ∧
    (m.head_pos ≠ 0 ∧ t.direction = .LEFT →
      m'.head_pos = m.head_pos - 1 ∧
      m'.tape.length = m.extendTape.length) ∧
    (t.direction = .RIGHT →
      m'.head_pos = m.head_pos + 1 ∧
      m'.tape.length = m.extendTape.length) := by
  obtain ⟨cs, read, t', tape2, ns, hcs, hread, hf, hset, hns, hcase⟩ :=
    step_ok_cases m m' hs
  simp only [TM.matchedTransitions, hcs, hread, hf] at hm
  injection hm with hm _
  subst hm
  have hlen2 : tape2.length = m.extendTape.length := pySet_some_length _ _ _ _ hset
  rcases hcase with ⟨hz, hd, hm'⟩ | ⟨hnz, hd, hm'⟩ | ⟨hnz, hd, hm'⟩
  · subst hm'
    refine ⟨fun _ => ?_, fun h => absurd hz h.1, fun h => ?_⟩
    · dsimp only
      exact ⟨hz, by rw [List.length_cons, hlen2], rfl⟩
    · rw [hd] at h
      cases h
  · subst hm'
    refine ⟨fun h => absurd ⟨h.1, hd⟩ hnz, fun _ => ?_, fun h => ?_⟩
    · dsimp only
      exact ⟨rfl, hlen2⟩
    · rw [hd] at h
      cases h
  · subst hm'
    have hR : t'.direction = .RIGHT := by
      cases hD : t'.direction
      · exact absurd hD hd
      · rfl
    refine ⟨fun h => absurd h.2 (by rw [hR]; intro hc; cases hc), fun h => absurd h.2 (by rw [hR]; intro hc; cases hc), fun _ => ?_⟩
    dsimp only
    exact ⟨rfl, hlen2⟩

/-- C5 witness at the concrete machine `mC5` (LEFT movement with the head
at position 1). -/
theorem C5_movement_witness :
    mC5x.head_pos = mC5.head_pos - 1 ∧ mC5x.tape.length = mC5.extendTape.length :=
  (C5_movement mC5 mC5x tC5 rfl rfl).2.1 ⟨by decide, rfl⟩

/-! ### Claim C2 -/

theorem run_finished_iff (m : TM) (n : Nat) (b : Bool) :
    m.run n = .finished b ↔
      ∃ k, k < n ∧ ∃ mi, m.loopState k = some mi ∧
        mi.haltCheck = some (.finished b) := by
  induction n generalizing m with
  | zero =>
    rw [TM.run]
    constructor
    · intro h
      cases h
    · rintro ⟨k, hk, _⟩
      omega
  | succ n ih =>
    rw [TM.run]
    rcases hh : m.haltCheck with _ | r
    · rcases hstep : m.step with m' | ⟨e, me⟩
      · constructor
        · intro h
          obtain ⟨k, hk, mi, hls, hhc⟩ := (ih m').mp h
          refine ⟨k + 1, by omega, mi, ?_, hhc⟩
          rw [TM.loopState, hh, hstep]
          exact hls
        · rintro ⟨k, hk, mi, hls, hhc⟩
          cases k with
          | zero =>
            rw [TM.loopState] at hls
            injection hls with hls
            subst hls
            rw [hh] at hhc
            cases hhc
          | succ j =>
            rw [TM.loopState, hh, hstep] at hls
            exact (ih m').mpr ⟨j, by omega, mi, hls, hhc⟩
      · constructor
        · intro h
          cases h
        · rintro ⟨k, hk, mi, hls, hhc⟩
          cases k with
          | zero =>
            rw [TM.loopState] at hls
            injection hls with hls
            subst hls
            rw [hh] at hhc
            cases hhc
          | succ j =>
            rw [TM.loopState, hh, hstep] at hls
            cases hls
    · constructor
      · intro h
        subst h
        exact ⟨0, by omega, m, rfl, hh⟩
      · rintro ⟨k, hk, mi, hls, hhc⟩
        cases k with
        | zero =>
          rw [TM.loopState] at hls
          injection hls with hls
          subst hls
          rw [hh] at hhc
          injection hhc with hhc
        | succ j =>
          rw [TM.loopState, hh] at hls
          cases hls

/-- C2 (amended): `run` returns true iff some iteration `k < maxSteps`
begins (after `k` error-free steps through non-halting configurations)
in a configuration whose halting check is "accepted" (an ACCEPTING
current state); it returns false iff such an iteration begins in a
configuration whose halting check is "rejected" (a REJECTING current
state, or a null current state with `implicit_reject` enabled).  A
halting state first entered by the step performed in the final permitted
iteration is not observed: no check iteration remains, and the run ends
with no result (see the counterexample). -/
theorem C2_run_accept_reject (m : TM) (n : Nat) :
    (m.run n = .finished true ↔
      ∃ k, k < n ∧ ∃ mi, m.loopState k = some mi ∧
        mi.haltCheck = some (.finished true)) ∧
    (m.run n = .finished false ↔
      ∃ k, k < n ∧ ∃ mi, m.loopState k = some mi ∧
        mi.haltCheck = some (.finished false)) :=
  ⟨run_finished_iff m n true, run_finished_iff m n false⟩

/-- C2 counterexample (the claim's boundary case): on `exM` the accepting
state is first entered by the step performed in the final permitted
iteration (`maxSteps = 1`), i.e. the machine reaches ACCEPTING before
exhausting `maxSteps`, yet `run` returns no result, not true. -/
theorem C2_final_step_unobserved :
    TM.init [stS, stA, stR] [] "_" false = .ok exM ∧
    exM.step = .ok exM1 ∧
    exM1.haltCheck = some (.finished true) ∧
    exM.run 1 = .noResult ∧
    exM.run 1 ≠ .finished true :=
  ⟨rfl, rfl, rfl, rfl, by decide⟩

/-! ### Claim C9 -/

/-- C9: if the run loop completes all `maxSteps` iterations without an
explicit return and without an error (every iteration fell through the
halting checks and stepped successfully), `run` ends with the no-result
outcome, which is a distinct constructor from both booleans; in
particular `run` with `maxSteps = 0` yields no result for every machine,
regardless of its current state. -/
theorem C9_step_limit_no_result :
    (∀ m : TM, m.run 0 = .noResult) ∧
    (∀ (m mi : TM) (n : Nat), m.loopState n = some mi → m.run n = .noResult) ∧
    (∀ b : Bool, RunOutcome.noResult ≠ .finished b) := by
  refine ⟨fun m => rfl, ?_, fun b h => by cases h⟩
  intro m mi n
  induction n generalizing m with
  | zero => intro _; rfl
  | succ n ih =>
    intro hls
    rw [TM.loopState] at hls
    rcases hh : m.haltCheck with _ | r <;> rw [hh] at hls
    · rcases hstep : m.step with m' | ⟨e, me⟩ <;> rw [hstep] at hls
      · rw [TM.run, hh, hstep]
        exact ih m' hls
      · cases hls
    · cases hls

/-- C9 witness: on `exM` the single permitted iteration steps without
halting, so `run 1` ends with no result. -/
theorem C9_step_limit_no_result_witness : exM.run 1 = .noResult :=
  C9_step_limit_no_result.2.1 exM exM1 1 rfl

/-! ### Claim C10 -/

/-- The well-formedness property of the current-state reference: it is
non-null and points to an element of the machine's state list. -/
def TM.currentWF (m : TM) : Prop :=
  ∃ cs, m.current_state = some cs ∧ cs ∈ m.states

theorem step_err_kind (m : TM) (e : TMErr) (m' : TM)
    (hs : m.step = .err e m') :
    e = .nullCurrentState ∨ e = .indexError ∨ e = .noPossibleTransition ∨
      e = .nonExistentState := by
  unfold TM.step at hs
  simp only at hs
  split at hs
  · simp only [StepOutcome.err.injEq] at hs
    exact Or.inl hs.1.symm
  · split at hs
    · simp only [StepOutcome.err.injEq] at hs
      exact Or.inr (Or.inl hs.1.symm)
    · split at hs
      · split at hs
        · simp only [StepOutcome.err.injEq] at hs
          exact Or.inr (Or.inl hs.1.symm)
        · split at hs
          · split at hs
            · simp at hs
            · split at hs
              · simp at hs
              · simp at hs
          · simp only [StepOutcome.err.injEq] at hs
            exact Or.inr (Or.inr (Or.inr hs.1.symm))
      · simp only [StepOutcome.err.injEq] at hs
        exact Or.inr (Or.inr (Or.inl hs.1.symm))

theorem init_ok_currentWF (states : List TMState) (tape : List String)
    (es : String) (ir : Bool) (m : TM)
    (h : TM.init states tape es ir = .ok m) : m.currentWF := by
  simp only [TM.init] at h
  split at h
  · exact absurd h (by simp)
  next hlen =>
    split at h
    · exact absurd h (by simp)
    · split at h
      · exact absurd h (by simp)
      · split at h
        · exact absurd h (by simp)
        · simp only [Except.ok.injEq] at h
          subst h
          rw [not_ne_iff] at hlen
          obtain ⟨s, hseq⟩ := List.length_eq_one.mp hlen
          refine ⟨s, ?_, ?_⟩
          · dsimp only
            rw [hseq]
            rfl
          · dsimp only
            exact List.mem_of_mem_filter (hseq ▸ List.mem_singleton_self s)

theorem step_ok_currentWF (m m' : TM) (hs : m.step = .ok m') :
    m'.currentWF := by
  obtain ⟨cs, read, t, tape2, ns, hcs, hread, hf, hset, hns, hcase⟩ :=
    step_ok_cases m m' hs
  have hmem : ns ∈ m.states :=
    List.mem_of_mem_filter (hns ▸ List.mem_singleton_self ns)
  rcases hcase with ⟨_, _, hm'⟩ | ⟨_, _, hm'⟩ | ⟨_, _, hm'⟩ <;>
    (subst hm'; exact ⟨ns, rfl, hmem⟩)

theorem haltCheck_some_shape (m : TM) (cs : TMState)
    (hcs : m.current_state = some cs) (r : RunOutcome)
    (hh : m.haltCheck = some r) :
    r = .finished true ∨ r = .finished false := by
  unfold TM.haltCheck at hh
  rw [hcs] at hh
  split at hh
  next heq => cases heq
  next cs2 heq =>
    injection heq with heq
    subst heq
    split at hh
    · injection hh with hh
      exact Or.inl hh.symm
    · split at hh
      · injection hh with hh
        exact Or.inr hh.symm
      · cases hh

/-- C10: after successful construction, and after every step that returns
normally, the current state is non-null and an element of the machine's
state list; consequently `run`'s null-current-state error (the
"missing transitions" InconsistentMachineError) is unreachable for a
machine driven only through construction, `step` and `run`. -/
theorem C10_current_state_invariant :
    (∀ (states : List TMState) (tape : List String) (es : String) (ir : Bool)
        (m : TM), TM.init states tape es ir = .ok m → m.currentWF) ∧
    (∀ m m' : TM, m.step = .ok m' → m'.currentWF) ∧
    (∀ m : TM, m.currentWF → m.current_state ≠ none) ∧
    (∀ (m : TM) (n : Nat), m.currentWF → m.run n ≠ .error .missingTransitions) := by
  refine ⟨init_ok_currentWF, step_ok_currentWF, ?_, ?_⟩
  · rintro m ⟨cs, hcs, _⟩ hnone
    rw [hcs] at hnone
    cases hnone
  · intro m n
    induction n generalizing m with
    | zero =>
      intro _ h
      cases h
    | succ n ih =>
      rintro ⟨cs, hcs, hmem⟩ h
      rw [TM.run] at h
      rcases hh : m.haltCheck with _ | r <;> rw [hh] at h
      · rcases hstep : m.step with m' | ⟨e, me⟩ <;> rw [hstep] at h
        · exact ih m' (step_ok_currentWF m m' hstep) h
        · injection h with h
          subst h
          rcases step_err_kind m _ me hstep with he | he | he | he <;> cases he
      · rcases haltCheck_some_shape m cs hcs r hh with hr | hr <;>
          (subst hr; cases h)

/-- C10 witness at the machine `exM` produced by construction and its
successor `exM1` produced by one successful step. -/
theorem C10_current_state_invariant_witness :
    exM.currentWF ∧ exM1.currentWF ∧ exM.current_state ≠ none ∧
    exM.run 5 ≠ .error .missingTransitions :=
  ⟨C10_current_state_invariant.1 [stS, stA, stR] [] "_" false exM rfl,
   C10_current_state_invariant.2.1 exM exM1 rfl,
   C10_current_state_invariant.2.2.1 exM ⟨stS, rfl, by simp [exM]⟩,
   C10_current_state_invariant.2.2.2 exM 5 ⟨stS, rfl, by simp [exM]⟩⟩
